import Mathlib

/-!
A shallow embedding of the message-search and snippet-extraction core of the
`SessionSearchModal` component (functions `getMessageText`, `createSnippet`
and `searchMessages`), together with proofs of the specified properties.

Strings are modelled as `List Char` (JS strings viewed as character
sequences); JS `toLowerCase` is modelled character-wise by `Char.toLower`.
The `maxLength` parameter is modelled as a natural number (a character
count; the only call site passes the default `100`).  Integer-valued JS
quantities that may go negative (indices, the `-1` sentinel, context sizes)
are modelled as `Int`.
-/

namespace SessionSearch

/-- Whitespace as recognised by JS `String.prototype.trim` (restricted to
the code points that can realistically occur here). -/
def jsIsWhitespace (c : Char) : Bool :=
  c == ' ' || c == '\t' || c == '\n' || c == '\r' || c == '\x0b' || c == '\x0c' ||
  c == '\u00A0' || c == '\uFEFF'

/-- JS `String.prototype.trim`: drop leading and trailing whitespace. -/
def jsTrim (s : List Char) : List Char :=
  ((s.dropWhile jsIsWhitespace).reverse.dropWhile jsIsWhitespace).reverse

/-- Test whether `q` is an initial segment of `s` (helper for `firstIndexOf`). -/
def isPrefixList : List Char → List Char → Bool
  | [], _ => true
  | _ :: _, [] => false
  | a :: as, b :: bs => a == b && isPrefixList as bs

/-- JS `String.prototype.indexOf` (with no fromIndex): the first index at
which `q` occurs in `s`, as `Option Nat` (`none` plays the role of `-1`).
For the empty `q` this is `some 0`, as in JS. -/
def firstIndexOf : List Char → List Char → Option Nat
  | [], q => if isPrefixList q [] then some 0 else none
  | c :: rest, q =>
    if isPrefixList q (c :: rest) then some 0
    else (firstIndexOf rest q).map (· + 1)

/-- JS `String.prototype.includes`. -/
def containsSubstring (s q : List Char) : Bool :=
  (firstIndexOf s q).isSome

/-- JS `str.lastIndexOf(' ', pos)`: the largest index `i ≤ pos` (with `pos`
clamped below by `0`) such that `s[i]` is a space, or `-1` when there is
none. -/
def lastSpaceIndex (s : List Char) (pos : Int) : Int :=
  match ((List.range s.length).filter
      (fun (i : Nat) => decide ((i : Int) ≤ max pos 0) && (s.getD i 'A' == ' '))).getLast? with
  | some i => (i : Int)
  | none => -1

/-- JS `String.prototype.slice` with integer arguments: negative indices
count from the end, both ends are clamped to `[0, length]`, and a
crossed-over range yields the empty string. -/
def jsSlice (s : List Char) (a b : Int) : List Char :=
  let len : Int := s.length
  let lo : Int := if a < 0 then max (len + a) 0 else min a len
  let hi : Int := if b < 0 then max (len + b) 0 else min b len
  (s.take hi.toNat).drop lo.toNat

/-- The literal `'...'` prepended/appended to truncated snippets. -/
def ellipsis : List Char := ['.', '.', '.']

/-- Result record of `createSnippet`. -/
structure SnippetResult where
  snippet : List Char
  matchStart : Int
  matchEnd : Int
  deriving DecidableEq, Repr

/-- The snippet string built in the match branch of `createSnippet`
(source lines 59–74): context bounds around `matchIndex`, left-edge
word-boundary adjustment, slice, and ellipses. -/
def snippetCore (text query : List Char) (maxLength matchIndex : Nat) : List Char :=
  let contextSize : Int := Int.fdiv ((maxLength : Int) - (query.length : Int)) 2
  let start0 : Int := max 0 ((matchIndex : Int) - contextSize)
  let endPos : Int := min (text.length : Int) ((matchIndex : Int) + (query.length : Int) + contextSize)
  let start : Int :=
    if 0 < start0 then
      let spaceIndex := lastSpaceIndex text (start0 + 10)
      if start0 - 10 < spaceIndex then spaceIndex + 1 else start0
    else start0
  (if 0 < start then ellipsis else []) ++ jsSlice text start endPos ++
    (if endPos < (text.length : Int) then ellipsis else [])

/-- `createSnippet(text, query, maxLength = 100)`: find the first
case-insensitive occurrence of `query`; on failure return the text
truncated to `maxLength` with sentinel offsets `-1`; otherwise build the
snippet via `snippetCore` and re-locate the query inside the snippet to
produce the final offsets. -/
def createSnippet (text query : List Char) (maxLength : Nat := 100) : SnippetResult :=
  match firstIndexOf (text.map Char.toLower) (query.map Char.toLower) with
  | none => ⟨jsSlice text 0 (maxLength : Int), -1, -1⟩
  | some matchIndex =>
    let snippet := snippetCore text query maxLength matchIndex
    let snippetMatchIndex : Int :=
      match firstIndexOf (snippet.map Char.toLower) (query.map Char.toLower) with
      | none => -1
      | some i => (i : Int)
    ⟨snippet, snippetMatchIndex, snippetMatchIndex + (query.length : Int)⟩

/-- The `name`/`description` pair of a tool invocation; either field may be
absent (`undefined` in the source). -/
structure ToolInfo where
  name : Option (List Char)
  description : Option (List Char)
  deriving DecidableEq, Repr

/-- The payload of an `agent-event` message: the `message` variant carries a
display string; the remaining variants carry no searchable text. -/
inductive AgentEvent where
  | message (msg : List Char)
  | switchMode (mode : List Char)
  | limitReached (endsAt : Int)
  | unknownEvent
  deriving DecidableEq, Repr

/-- The per-kind payload of a `Message` (only the fields that the search
core reads are modelled).  `unknownKind` stands for any kind not recognised
by `getMessageText`. -/
inductive MessageContent where
  | userText (text : List Char)
  | agentText (text : List Char)
  | toolCall (tool : Option ToolInfo)
  | agentEvent (event : AgentEvent)
  | unknownKind
  deriving DecidableEq, Repr

/-- A message: stable identifier, creation timestamp (ms since epoch) and
kind-specific content. -/
structure Message where
  id : List Char
  createdAt : Int
  content : MessageContent
  deriving DecidableEq, Repr

/-- JS `Array.prototype.join(' ')`. -/
def joinWithSpace : List (List Char) → List Char
  | [] => []
  | [p] => p
  | p :: rest => p ++ ' ' :: joinWithSpace rest

/-- `[message.tool?.name, message.tool?.description].filter(Boolean).join(' ')`:
drop absent (`none`) and empty entries, join the rest with a single space. -/
def toolSearchText (tool : Option ToolInfo) : List Char :=
  joinWithSpace
    (([tool.bind ToolInfo.name, tool.bind ToolInfo.description].filterMap id).filter
      (fun s => !s.isEmpty))

/-- `getMessageText`: extract the searchable text of a message. -/
def getMessageText (message : Message) : List Char :=
  match message.content with
  | .userText text => text
  | .agentText text => text
  | .toolCall tool => toolSearchText tool
  | .agentEvent (.message msg) => msg
  | .agentEvent _ => []
  | .unknownKind => []

/-- One search hit: the message together with its snippet and the match
offsets inside the snippet. -/
structure SearchResult where
  message : Message
  snippet : List Char
  matchStart : Int
  matchEnd : Int
  deriving DecidableEq, Repr

/-- `searchMessages`: empty result for a whitespace-only query; otherwise a
single in-order pass keeping every message whose extracted text contains
the query case-insensitively, paired with its snippet. -/
def searchMessages (messages : List Message) (query : List Char) : List SearchResult :=
  if jsTrim query = [] then []
  else
    messages.filterMap (fun message =>
      let text := getMessageText message
      if text = [] then none
      else if containsSubstring (text.map Char.toLower) (query.map Char.toLower) then
        let r := createSnippet text query 100
        some ⟨message, r.snippet, r.matchStart, r.matchEnd⟩
      else none)

/-- The slice `snippet[mStart:mEnd]` equals `query` up to case. -/
def matchSliceOk (snippet : List Char) (mStart mEnd : Int) (query : List Char) : Prop :=
  ((snippet.drop mStart.toNat).take (mEnd - mStart).toNat).map Char.toLower =
    query.map Char.toLower

/-- The match-branch snippet as the spec sentence for the word-boundary step
describes it: search backward from `start + 10` for the nearest preceding
space and advance `start` to just after that space exactly when that space
was found and lies within 10 characters strictly before `start`.  Written
from the spec wording, to be compared with `snippetCore`. -/
def snippetCoreAsClaimed (text query : List Char) (maxLength matchIndex : Nat) : List Char :=
  let contextSize : Int := Int.fdiv ((maxLength : Int) - (query.length : Int)) 2
  let start0 : Int := max 0 ((matchIndex : Int) - contextSize)
  let endPos : Int := min (text.length : Int) ((matchIndex : Int) + (query.length : Int) + contextSize)
  let spaceIndex : Int := lastSpaceIndex text (start0 + 10)
  let start : Int :=
    if 0 < start0 ∧ 0 ≤ spaceIndex ∧ start0 - 10 ≤ spaceIndex ∧ spaceIndex < start0 then
      spaceIndex + 1
    else start0
  (if 0 < start then ellipsis else []) ++ jsSlice text start endPos ++
    (if endPos < (text.length : Int) then ellipsis else [])

/-- The match-branch snippet as the amended description has it: `start`
becomes `spaceIndex + 1` exactly when `start > 0` and
`lastSpaceIndex text (start + 10) > start - 10` (a condition that also
fires for a space up to 10 characters after `start`, and, when no space
exists at all, for every `start < 9`, sending `start` to `0`); the right
bound `endPos` is used unadjusted. -/
def snippetCoreAmendedSpec (text query : List Char) (maxLength matchIndex : Nat) : List Char :=
  let contextSize : Int := Int.fdiv ((maxLength : Int) - (query.length : Int)) 2
  let start0 : Int := max 0 ((matchIndex : Int) - contextSize)
  let endPos : Int := min (text.length : Int) ((matchIndex : Int) + (query.length : Int) + contextSize)
  let spaceIndex : Int := lastSpaceIndex text (start0 + 10)
  let start : Int := if 0 < start0 ∧ start0 - 10 < spaceIndex then spaceIndex + 1 else start0
  (if 0 < start then ellipsis else []) ++ jsSlice text start endPos ++
    (if endPos < (text.length : Int) then ellipsis else [])

/-! ## Helper lemmas -/

theorem isPrefixList_take {q s : List Char} (h : isPrefixList q s = true) :
    s.take q.length = q ∧ q.length ≤ s.length := by
  induction q generalizing s with
  | nil => exact ⟨rfl, Nat.zero_le _⟩
  | cons a as ih =>
    cases s with
    | nil => simp [isPrefixList] at h
    | cons b bs =>
      simp only [isPrefixList, Bool.and_eq_true, beq_iff_eq] at h
      obtain ⟨rfl, hrest⟩ := h
      obtain ⟨h1, h2⟩ := ih hrest
      refine ⟨?_, ?_⟩
      · simp [List.take_succ_cons, h1]
      · simp only [List.length_cons]
        omega

theorem firstIndexOf_spec {s q : List Char} {i : Nat} (h : firstIndexOf s q = some i) :
    (s.drop i).take q.length = q ∧ i + q.length ≤ s.length := by
  induction s generalizing i with
  | nil =>
    simp only [firstIndexOf] at h
    split at h
    · obtain rfl : (0 : Nat) = i := by injection h
      rename_i hp
      obtain ⟨h1, h2⟩ := isPrefixList_take hp
      exact ⟨h1, by omega⟩
    · exact absurd h (by simp)
  | cons c rest ih =>
    simp only [firstIndexOf] at h
    split at h
    · obtain rfl : (0 : Nat) = i := by injection h
      rename_i hp
      obtain ⟨h1, h2⟩ := isPrefixList_take hp
      exact ⟨h1, by omega⟩
    · rw [Option.map_eq_some'] at h
      obtain ⟨j, hj, rfl⟩ := h
      obtain ⟨h1, h2⟩ := ih hj
      refine ⟨?_, ?_⟩
      · simpa [List.drop_succ_cons] using h1
      · simp only [List.length_cons]
        omega

theorem firstIndexOf_nil_query (s : List Char) : firstIndexOf s [] = some 0 := by
  cases s <;> rfl

theorem firstIndexOf_nil_of_ne {q : List Char} (hq : q ≠ []) :
    firstIndexOf [] q = none := by
  cases q with
  | nil => exact absurd rfl hq
  | cons a as => rfl

theorem containsSubstring_nil {q : List Char} (hq : q ≠ []) :
    containsSubstring [] q = false := by
  rw [containsSubstring, firstIndexOf_nil_of_ne hq]
  rfl

theorem jsTrim_eq_nil_of_all {s : List Char} (h : ∀ c ∈ s, jsIsWhitespace c) :
    jsTrim s = [] := by
  have h1 : s.dropWhile jsIsWhitespace = [] := List.dropWhile_eq_nil_iff.mpr h
  rw [jsTrim, h1]
  rfl

theorem jsSlice_zero_nat (s : List Char) (n : Nat) : jsSlice s 0 (n : Int) = s.take n := by
  have h0 : ¬ ((0 : Int) < 0) := by omega
  have h1 : ¬ ((n : Int) < 0) := by omega
  simp only [jsSlice]
  rw [if_neg h0, if_neg h1]
  have h2 : (min (0 : Int) (s.length : Int)) = 0 := by omega
  rw [h2]
  have h3 : ((min (n : Int) (s.length : Int)).toNat) = min n s.length := by omega
  rw [h3, Int.toNat_zero, List.drop_zero]
  rcases le_total n s.length with h | h
  · rw [min_eq_left h]
  · rw [min_eq_right h, List.take_length, List.take_of_length_le h]

theorem ite_ite_and {α : Type} (p q : Prop) [Decidable p] [Decidable q] (a b : α) :
    (if p then (if q then a else b) else b) = if p ∧ q then a else b := by
  split_ifs <;> tauto

theorem createSnippet_found (text query : List Char) (maxLength : Nat)
    (h : (createSnippet text query maxLength).matchStart ≠ -1) :
    ∃ i : Nat,
      (createSnippet text query maxLength).matchStart = (i : Int) ∧
      (createSnippet text query maxLength).matchEnd = (i : Int) + (query.length : Int) ∧
      i + query.length ≤ (createSnippet text query maxLength).snippet.length ∧
      (((createSnippet text query maxLength).snippet.drop i).take query.length).map Char.toLower
        = query.map Char.toLower := by
  cases h1 : firstIndexOf (text.map Char.toLower) (query.map Char.toLower) with
  | none => exact absurd (by simp [createSnippet, h1]) h
  | some m =>
    cases h2 : firstIndexOf ((snippetCore text query maxLength m).map Char.toLower)
        (query.map Char.toLower) with
    | none => exact absurd (by simp [createSnippet, h1, h2]) h
    | some i =>
      have h3 := (firstIndexOf_spec h2).2
      have h4 := (firstIndexOf_spec h2).1
      simp only [List.length_map] at h3 h4
      rw [← List.map_drop, ← List.map_take] at h4
      refine ⟨i, ?_, ?_, ?_, ?_⟩ <;>
        simp only [createSnippet, h1, h2] <;>
        first
          | rfl
          | exact h3
          | exact h4

/-! ## Claim theorems -/

/-- C3: for every message list and every query that is empty or consists
only of whitespace, `searchMessages` returns the empty sequence. -/
theorem searchMessages_whitespace_query_empty (messages : List Message) (query : List Char)
    (h : ∀ c ∈ query, jsIsWhitespace c) :
    searchMessages messages query = [] := by
  rw [searchMessages, if_pos (jsTrim_eq_nil_of_all h)]

theorem searchMessages_whitespace_query_empty_witness :
    (∀ c ∈ (" \t ".toList), jsIsWhitespace c) ∧
    searchMessages [⟨"1".toList, 0, .userText "hello".toList⟩] (" \t ".toList) = [] :=
  ⟨by decide, searchMessages_whitespace_query_empty _ _ (by decide)⟩

/-- C4: when the query has no case-insensitive occurrence in the text,
`createSnippet` returns the text truncated to its first `maxLength`
characters with both offsets `-1`; in particular empty text with a
non-empty query yields the empty snippet with both offsets `-1`. -/
theorem createSnippet_no_occurrence_truncates :
    (∀ (text query : List Char) (maxLength : Nat),
        firstIndexOf (text.map Char.toLower) (query.map Char.toLower) = none →
        createSnippet text query maxLength = ⟨text.take maxLength, -1, -1⟩) ∧
    (∀ (query : List Char) (maxLength : Nat), query ≠ [] →
        createSnippet [] query maxLength = ⟨[], -1, -1⟩) := by
  constructor
  · intro text query maxLength h
    simp only [createSnippet, h, jsSlice_zero_nat]
  · intro query maxLength hq
    have hmap : query.map Char.toLower ≠ [] := by
      simpa using hq
    have h : firstIndexOf (([] : List Char).map Char.toLower) (query.map Char.toLower) = none := by
      rw [List.map_nil]
      exact firstIndexOf_nil_of_ne hmap
    simp only [createSnippet, h, jsSlice_zero_nat, List.take_nil]

theorem createSnippet_no_occurrence_truncates_witness :
    (firstIndexOf ("hello".toList.map Char.toLower) ("zzz".toList.map Char.toLower) = none ∧
      createSnippet "hello".toList "zzz".toList 100 = ⟨"hello".toList.take 100, -1, -1⟩) ∧
    ("zzz".toList ≠ [] ∧ createSnippet [] "zzz".toList 100 = ⟨[], -1, -1⟩) :=
  ⟨⟨by decide, createSnippet_no_occurrence_truncates.1 _ _ _ (by decide)⟩,
    ⟨by decide, createSnippet_no_occurrence_truncates.2 _ _ (by decide)⟩⟩

/-- C5 (counterexample): the claim "matchStart = -1 implies matchEnd = -1"
fails: with text `"zzzabcdef zz"`, query `"abcdef"` and maxLength `10`,
the word-boundary adjustment cuts the match out of the snippet, the
re-lookup fails, and the result has `matchStart = -1` but `matchEnd = 5`. -/
theorem sentinel_offsets_counterexample :
    (createSnippet "zzzabcdef zz".toList "abcdef".toList 10).matchStart = -1 ∧
    (createSnippet "zzzabcdef zz".toList "abcdef".toList 10).matchEnd ≠ -1 := by
  constructor <;> decide

/-- C5 (amended): the offsets are sentinel together only in the no-match
branch; in the match branch `matchEnd = matchStart + len(query)` always, so
when the re-lookup inside the snippet fails, `matchStart = -1` comes with
`matchEnd = len(query) - 1`, not `-1`. -/
theorem matchEnd_of_sentinel_matchStart (text query : List Char) (maxLength : Nat)
    (h : (createSnippet text query maxLength).matchStart = -1) :
    (createSnippet text query maxLength).matchEnd = -1 ∨
    (createSnippet text query maxLength).matchEnd = (query.length : Int) - 1 := by
  cases h1 : firstIndexOf (text.map Char.toLower) (query.map Char.toLower) with
  | none =>
    left
    simp [createSnippet, h1]
  | some m =>
    cases h2 : firstIndexOf ((snippetCore text query maxLength m).map Char.toLower)
        (query.map Char.toLower) with
    | none =>
      right
      simp only [createSnippet, h1, h2]
      omega
    | some i =>
      exfalso
      simp only [createSnippet, h1, h2] at h
      omega

theorem matchEnd_of_sentinel_matchStart_witness :
    (createSnippet "zzzabcdef zz".toList "abcdef".toList 10).matchStart = -1 ∧
    ((createSnippet "zzzabcdef zz".toList "abcdef".toList 10).matchEnd = -1 ∨
      (createSnippet "zzzabcdef zz".toList "abcdef".toList 10).matchEnd =
        (("abcdef".toList.length : Int)) - 1) :=
  ⟨by decide, matchEnd_of_sentinel_matchStart _ _ _ (by decide)⟩

/-- C10: with the empty query, `createSnippet` never takes the no-match
branch — the empty query is found at index `0` — and the returned
`matchStart` and `matchEnd` are both `0`. -/
theorem empty_query_matches_at_zero (text : List Char) (maxLength : Nat) :
    firstIndexOf (text.map Char.toLower) (([] : List Char).map Char.toLower) = some 0 ∧
    (createSnippet text [] maxLength).matchStart = 0 ∧
    (createSnippet text [] maxLength).matchEnd = 0 := by
  have h1 : firstIndexOf (text.map Char.toLower) (([] : List Char).map Char.toLower) = some 0 := by
    rw [List.map_nil]
    exact firstIndexOf_nil_query _
  have h1' : firstIndexOf (text.map Char.toLower) [] = some 0 := firstIndexOf_nil_query _
  have h2' : firstIndexOf ((snippetCore text [] maxLength 0).map Char.toLower) [] = some 0 :=
    firstIndexOf_nil_query _
  refine ⟨h1, ?_, ?_⟩ <;> simp [createSnippet, h1', h2']

/-- C1: for every output of `createSnippet` with `matchStart ≠ -1` — and
hence for every `SearchResult` produced by `searchMessages` — the slice
`snippet[matchStart:matchEnd]` equals the query under case-insensitive
comparison. -/
theorem snippet_match_slice_eq_query :
    (∀ (text query : List Char) (maxLength : Nat),
        (createSnippet text query maxLength).matchStart ≠ -1 →
        matchSliceOk (createSnippet text query maxLength).snippet
          (createSnippet text query maxLength).matchStart
          (createSnippet text query maxLength).matchEnd query) ∧
    (∀ (messages : List Message) (query : List Char) (r : SearchResult),
        r ∈ searchMessages messages query → r.matchStart ≠ -1 →
        matchSliceOk r.snippet r.matchStart r.matchEnd query) := by
  have main : ∀ (text query : List Char) (maxLength : Nat),
      (createSnippet text query maxLength).matchStart ≠ -1 →
      matchSliceOk (createSnippet text query maxLength).snippet
        (createSnippet text query maxLength).matchStart
        (createSnippet text query maxLength).matchEnd query := by
    intro text query maxLength h
    obtain ⟨i, h1, h2, h3, h4⟩ := createSnippet_found text query maxLength h
    rw [matchSliceOk, h1, h2]
    have e1 : ((i : Int)).toNat = i := by omega
    have e2 : (((i : Int) + (query.length : Int)) - (i : Int)).toNat = query.length := by omega
    rw [e1, e2]
    exact h4
  refine ⟨main, ?_⟩
  intro messages query r hr hms
  rw [searchMessages] at hr
  split at hr
  · exact absurd hr (by simp)
  · rw [List.mem_filterMap] at hr
    obtain ⟨m, _, hf⟩ := hr
    simp only at hf
    split at hf
    · exact absurd hf (by simp)
    · split at hf
      · obtain rfl := Option.some_injective _ hf
        exact main (getMessageText m) query 100 hms
      · exact absurd hf (by simp)

theorem snippet_match_slice_eq_query_witness :
    ((createSnippet "The FOX ran".toList "fox".toList 100).matchStart ≠ -1 ∧
      matchSliceOk (createSnippet "The FOX ran".toList "fox".toList 100).snippet
        (createSnippet "The FOX ran".toList "fox".toList 100).matchStart
        (createSnippet "The FOX ran".toList "fox".toList 100).matchEnd "fox".toList) ∧
    (⟨⟨"1".toList, 0, .userText "The FOX ran".toList⟩,
        (createSnippet "The FOX ran".toList "fox".toList 100).snippet,
        (createSnippet "The FOX ran".toList "fox".toList 100).matchStart,
        (createSnippet "The FOX ran".toList "fox".toList 100).matchEnd⟩ : SearchResult) ∈
        searchMessages [⟨"1".toList, 0, .userText "The FOX ran".toList⟩] "fox".toList :=
  ⟨⟨by decide, snippet_match_slice_eq_query.1 _ _ _ (by decide)⟩, by decide⟩

/-- C9: whenever `matchStart ≠ -1`, the offsets are well-formed indices into
the snippet: `0 ≤ matchStart`, `matchEnd = matchStart + len(query)` and
`matchEnd ≤ len(snippet)`. -/
theorem match_offsets_in_bounds (text query : List Char) (maxLength : Nat)
    (h : (createSnippet text query maxLength).matchStart ≠ -1) :
    0 ≤ (createSnippet text query maxLength).matchStart ∧
    (createSnippet text query maxLength).matchEnd =
      (createSnippet text query maxLength).matchStart + (query.length : Int) ∧
    (createSnippet text query maxLength).matchEnd ≤
      ((createSnippet text query maxLength).snippet.length : Int) := by
  obtain ⟨i, h1, h2, h3, _⟩ := createSnippet_found text query maxLength h
  rw [h1, h2]
  refine ⟨by omega, rfl, by omega⟩

theorem match_offsets_in_bounds_witness :
    (createSnippet "hello world".toList "World".toList 100).matchStart ≠ -1 ∧
    (0 ≤ (createSnippet "hello world".toList "World".toList 100).matchStart ∧
      (createSnippet "hello world".toList "World".toList 100).matchEnd =
        (createSnippet "hello world".toList "World".toList 100).matchStart +
          ("World".toList.length : Int) ∧
      (createSnippet "hello world".toList "World".toList 100).matchEnd ≤
        ((createSnippet "hello world".toList "World".toList 100).snippet.length : Int)) :=
  ⟨by decide, match_offsets_in_bounds _ _ _ (by decide)⟩

/-- C7: for a tool-invocation message, `getMessageText` joins the tool's
name and description with a single space, omitting whichever part is absent
or empty, with no stray separator; in particular name `"Read"` with empty
description extracts to exactly `"Read"`. -/
theorem toolCall_text_space_joined (id : List Char) (ts : Int) (n d : List Char) :
    getMessageText ⟨id, ts, .toolCall none⟩ = [] ∧
    getMessageText ⟨id, ts, .toolCall (some ⟨none, none⟩)⟩ = [] ∧
    getMessageText ⟨id, ts, .toolCall (some ⟨some n, none⟩)⟩ = n ∧
    getMessageText ⟨id, ts, .toolCall (some ⟨none, some d⟩)⟩ = d ∧
    getMessageText ⟨id, ts, .toolCall (some ⟨some n, some d⟩)⟩ =
      (if n.isEmpty then d else if d.isEmpty then n else n ++ ' ' :: d) ∧
    getMessageText ⟨id, ts, .toolCall (some ⟨some "Read".toList, some "".toList⟩)⟩ =
      "Read".toList := by
  refine ⟨rfl, rfl, ?_, ?_, ?_, rfl⟩
  · cases n <;> rfl
  · cases d <;> rfl
  · cases n <;> cases d <;> rfl

/-- C8: `getMessageText` is total: an event-kind message yields the event's
display message exactly for the `message` event variant and the empty
string for every other event variant, and every unrecognized message kind
yields the empty string. -/
theorem getMessageText_event_and_unknown_total (id : List Char) (ts : Int)
    (m mode : List Char) (endsAt : Int) :
    getMessageText ⟨id, ts, .agentEvent (.message m)⟩ = m ∧
    getMessageText ⟨id, ts, .agentEvent (.switchMode mode)⟩ = [] ∧
    getMessageText ⟨id, ts, .agentEvent (.limitReached endsAt)⟩ = [] ∧
    getMessageText ⟨id, ts, .agentEvent .unknownEvent⟩ = [] ∧
    getMessageText ⟨id, ts, .unknownKind⟩ = [] :=
  ⟨rfl, rfl, rfl, rfl, rfl⟩

/-- C2: for a query whose trimmed form is non-empty, `searchMessages`
returns exactly the messages whose extracted text contains the query
case-insensitively, in input order (one result per matching message, no
reordering or deduplication), each paired with the snippet built from its
extracted text; consequently the matched messages form an in-order
subsequence of the input. -/
theorem searchMessages_eq_filter_in_order (messages : List Message) (query : List Char)
    (h : jsTrim query ≠ []) :
    searchMessages messages query =
      (messages.filter fun m =>
          containsSubstring ((getMessageText m).map Char.toLower) (query.map Char.toLower)).map
        (fun m =>
          (⟨m, (createSnippet (getMessageText m) query 100).snippet,
            (createSnippet (getMessageText m) query 100).matchStart,
            (createSnippet (getMessageText m) query 100).matchEnd⟩ : SearchResult)) ∧
    List.Sublist ((searchMessages messages query).map SearchResult.message) messages := by
  have hq : query ≠ [] := fun e => h (by rw [e]; rfl)
  have hmap : query.map Char.toLower ≠ [] := by simpa using hq
  have heq : searchMessages messages query =
      (messages.filter fun m =>
          containsSubstring ((getMessageText m).map Char.toLower) (query.map Char.toLower)).map
        (fun m =>
          (⟨m, (createSnippet (getMessageText m) query 100).snippet,
            (createSnippet (getMessageText m) query 100).matchStart,
            (createSnippet (getMessageText m) query 100).matchEnd⟩ : SearchResult)) := by
    rw [searchMessages, if_neg h]
    induction messages with
    | nil => rfl
    | cons m ms ih =>
      rw [List.filterMap_cons, List.filter_cons]
      by_cases ht : getMessageText m = []
      · have hc : containsSubstring ((getMessageText m).map Char.toLower)
            (query.map Char.toLower) = false := by
          rw [ht, List.map_nil]
          exact containsSubstring_nil hmap
        simp [ht, containsSubstring_nil hmap, ih]
      · by_cases hc : containsSubstring ((getMessageText m).map Char.toLower)
            (query.map Char.toLower) = true
        · simp [ht, hc, ih]
        · have hc' : containsSubstring ((getMessageText m).map Char.toLower)
              (query.map Char.toLower) = false := by
            simpa using hc
          simp [ht, hc', ih]
  refine ⟨heq, ?_⟩
  rw [heq, List.map_map]
  have hcomp : (SearchResult.message ∘ fun m =>
      (⟨m, (createSnippet (getMessageText m) query 100).snippet,
        (createSnippet (getMessageText m) query 100).matchStart,
        (createSnippet (getMessageText m) query 100).matchEnd⟩ : SearchResult)) = id :=
    funext fun m => rfl
  rw [hcomp, List.map_id]
  exact List.filter_sublist _

theorem searchMessages_eq_filter_in_order_witness :
    jsTrim "fox".toList ≠ [] ∧
    (searchMessages
        [⟨"1".toList, 0, .userText "a fox ran".toList⟩, ⟨"2".toList, 0, .userText "a dog".toList⟩]
        "fox".toList =
      (([⟨"1".toList, 0, .userText "a fox ran".toList⟩,
          ⟨"2".toList, 0, .userText "a dog".toList⟩] : List Message).filter fun m =>
          containsSubstring ((getMessageText m).map Char.toLower)
            ("fox".toList.map Char.toLower)).map
        (fun m =>
          (⟨m, (createSnippet (getMessageText m) "fox".toList 100).snippet,
            (createSnippet (getMessageText m) "fox".toList 100).matchStart,
            (createSnippet (getMessageText m) "fox".toList 100).matchEnd⟩ : SearchResult)) ∧
    List.Sublist
      ((searchMessages
          [⟨"1".toList, 0, .userText "a fox ran".toList⟩, ⟨"2".toList, 0, .userText "a dog".toList⟩]
          "fox".toList).map SearchResult.message)
      [⟨"1".toList, 0, .userText "a fox ran".toList⟩, ⟨"2".toList, 0, .userText "a dog".toList⟩]) :=
  ⟨by decide, searchMessages_eq_filter_in_order _ _ (by decide)⟩

/-- C6 (counterexample): the claim's description of the word-boundary step
— advance `start` exactly when the backward space search finds a space
within 10 characters before `start` — does not match the code: with text
`"zzzabcdefzzz"` (no space at all), query `"abcdef"` and maxLength `10`,
the code's comparison `-1 > start - 10` succeeds and `start` is reset to
`0` (snippet `"zzzabcdefzz..."`, no leading ellipsis), while the claimed
rule would leave `start = 1` (snippet `"...zzabcdefzz..."`). -/
theorem word_boundary_claim_counterexample :
    firstIndexOf ("zzzabcdefzzz".toList.map Char.toLower)
        ("abcdef".toList.map Char.toLower) = some 3 ∧
    (createSnippet "zzzabcdefzzz".toList "abcdef".toList 10).snippet ≠
      snippetCoreAsClaimed "zzzabcdefzzz".toList "abcdef".toList 10 3 ∧
    (createSnippet "zzzabcdefzzz".toList "abcdef".toList 10).snippet =
      "zzzabcdefzz...".toList ∧
    snippetCoreAsClaimed "zzzabcdefzzz".toList "abcdef".toList 10 3 =
      "...zzabcdefzz...".toList :=
  ⟨by decide, by decide, by decide, by decide⟩

/-- C6 (amended): in the match branch, with `contextSize`, `start`, `end`
as specified, the code computes `spaceIndex = lastIndexOf(' ', start + 10)`
(`-1` when no space exists at position ≤ `start + 10`) and advances `start`
to `spaceIndex + 1` exactly when `spaceIndex > start - 10` — a condition
that also fires for a space up to 10 characters after `start`, and, when no
space is found, whenever `start < 9` (resetting `start` to `0`); no
analogous adjustment is applied to `end`. -/
theorem word_boundary_adjustment_amended (text query : List Char) (maxLength matchIndex : Nat)
    (h : firstIndexOf (text.map Char.toLower) (query.map Char.toLower) = some matchIndex) :
    (createSnippet text query maxLength).snippet =
      snippetCoreAmendedSpec text query maxLength matchIndex := by
  simp only [createSnippet, h]
  simp only [snippetCore, snippetCoreAmendedSpec, ite_ite_and]

theorem word_boundary_adjustment_amended_witness :
    firstIndexOf ("zzzabcdef zz".toList.map Char.toLower)
        ("abcdef".toList.map Char.toLower) = some 3 ∧
    (createSnippet "zzzabcdef zz".toList "abcdef".toList 10).snippet =
      snippetCoreAmendedSpec "zzzabcdef zz".toList "abcdef".toList 10 3 :=
  ⟨by decide, word_boundary_adjustment_amended _ _ _ _ (by decide)⟩

end SessionSearch
